import Mathlib

/-!
Shallow embedding of `haystack/indexing/utils.py`:
`convert_files_to_documents` (Document Converter) and
`fetch_archive_from_http` (Archive Fetcher).

The filesystem is modelled explicitly: a directory is an existence flag
together with the list of files found under it by a recursive scan, each
file carrying its basename (final path component) and its textual content.
External collaborators (PDF text extraction, HTTP download, archive
extraction) are oracle parameters.
-/

namespace Haystack

/-- A document record: the only essential field is the text content
(`Document(text=...)` in `haystack.database.base`). -/
structure Document where
  text : String
deriving Repr, DecidableEq

/-- A file discovered by the directory scan: basename of the path and the
textual content that `open(path).read()` would return (for a `.pdf` file the
content field is ignored; the PDF oracle is consulted instead). -/
structure SrcFile where
  name : String
  content : String
deriving Repr, DecidableEq

/-- A root directory: whether it exists, and the files under it in the
order the recursive scan visits them. -/
structure Fs where
  dirExists : Bool
  files : List SrcFile
deriving Repr

/-- Index of the last `'.'` in a character list (`str.rfind('.')`),
`none` when there is no dot. -/
def rfindDot : List Char → Option Nat
  | [] => none
  | c :: rest =>
    match rfindDot rest with
    | some i => some (i + 1)
    | none => if c = '.' then some 0 else none

/-- `pathlib.PurePath.suffix` of a basename: the substring from the last
dot, unless that dot is the first character or the last character of the
name, in which case the suffix is empty. -/
def pySuffix (name : String) : String :=
  match rfindDot name.data with
  | none => ""
  | some i =>
    if 0 < i ∧ i + 1 < name.data.length then String.mk (name.data.drop i) else ""

/-- Whether `fnmatch` pattern `*<ext>` matches a basename: the basename
ends with `ext` (a leading `*` matches any string, the empty one included). -/
def fnmatchStarExt (ext name : String) : Bool :=
  List.isSuffixOf ext.data name.data

/-- `Path(dir_path).glob("**/*" + ext)`: every file under the root whose
basename ends with `ext`, in scan order; a glob over a directory that does
not exist yields no matches. -/
def globFiles (fs : Fs) (ext : String) : List SrcFile :=
  if fs.dirExists then fs.files.filter (fun f => fnmatchStarExt ext f.name) else []

/-- `text.split("\n\n")` on the character list: split at each
non-overlapping occurrence of two consecutive newlines, scanning left to
right. -/
def splitNN : List Char → List (List Char)
  | [] => [[]]
  | '\n' :: '\n' :: rest => [] :: splitNN rest
  | c :: rest =>
    match splitNN rest with
    | [] => [[c]]
    | p :: ps => (c :: p) :: ps

/-- The characters `str.strip()` removes (Python's ASCII whitespace). -/
def isPySpace (c : Char) : Bool :=
  c = ' ' ∨ c = '\t' ∨ c = '\n' ∨ c = '\r' ∨ c = '\x0b' ∨ c = '\x0c'

/-- `not para.strip()`: the paragraph consists of whitespace only. -/
def isBlankPara (cs : List Char) : Bool :=
  cs.all isPySpace

/-- The paragraph-splitting branch of the converter loop: split the cleaned
text on `"\n\n"`, skip whitespace-only paragraphs, and emit one record per
remaining paragraph (unstripped), preserving order. -/
def paragraphDocs (text : String) : List Document :=
  ((splitNN text.data).filter (fun p => !isBlankPara p)).map (fun p => ⟨String.mk p⟩)

/-- `if clean_func: text = clean_func(text)`. -/
def applyClean (clean : Option (String → String)) (text : String) : String :=
  match clean with
  | none => text
  | some g => g text

/-- One iteration of the converter's main loop for one discovered file:
dispatch on `path.suffix`, read or extract the raw text (raising for an
unsupported suffix), clean it, then emit records for the file. -/
def processFile (pdfExtract : SrcFile → String) (clean : Option (String → String))
    (split_paragraphs : Bool) (f : SrcFile) : Except String (List Document) :=
  let textE : Except String String :=
    if pySuffix f.name = ".txt" then .ok f.content
    else if pySuffix f.name = ".pdf" then .ok (pdfExtract f)
    else .error ("Indexing of " ++ pySuffix f.name ++ " files is not currently supported.")
  match textE with
  | .error e => .error e
  | .ok raw =>
    let text := applyClean clean raw
    if split_paragraphs then .ok (paragraphDocs text) else .ok [⟨text⟩]

/-- The converter's main loop over the enumerated file paths, concatenating
the records of each file; the first raised exception propagates. -/
def docsOfFiles (pdfExtract : SrcFile → String) (clean : Option (String → String))
    (split_paragraphs : Bool) : List SrcFile → Except String (List Document)
  | [] => .ok []
  | f :: rest =>
    match processFile pdfExtract clean split_paragraphs f with
    | .error e => .error e
    | .ok ds =>
      match docsOfFiles pdfExtract clean split_paragraphs rest with
      | .error e => .error e
      | .ok ds' => .ok (ds ++ ds')

/-- `convert_files_to_documents(dir_path, clean_func, split_paragraphs)`:
enumerate `**/*.txt` then `**/*.pdf` under the root, and run the main loop
over the concatenated path list. -/
def convert_files_to_documents (fs : Fs) (pdfExtract : SrcFile → String)
    (clean_func : Option (String → String)) (split_paragraphs : Bool) :
    Except String (List Document) :=
  docsOfFiles pdfExtract clean_func split_paragraphs
    (globFiles fs ".txt" ++ globFiles fs ".pdf")

/-- `url[-n:]`: the last `n` characters of the string, or the whole string
when it is shorter than `n`. -/
def pySliceLast (s : String) (n : Nat) : String :=
  String.mk (s.data.drop (s.data.length - n))

/-- Oracles for the Archive Fetcher's external collaborators: the outcome
of `http_get` on the url, and the directory entries each archive library
would extract from the downloaded data (`.error` = the call raises). -/
structure FetchEnv where
  httpGet : Except String Unit
  zipExtract : Except String (List String)
  tarExtract : Except String (List String)

/-- Observable outcome of one `fetch_archive_from_http` call: the returned
boolean or the propagated exception, the output directory's entries after
the call, whether the directory had to be created, and the temporary
download file's lifecycle. -/
structure FetchOutcome where
  result : Except String Bool
  dirContents : List String
  dirCreated : Bool
  tempCreated : Bool
  tempDeleted : Bool
deriving Repr

/-- `fetch_archive_from_http(url, output_dir, proxies)`.  The output
directory is `none` when the path does not exist, otherwise `some` of its
recursively enumerated entries.  Create the directory if missing; if it
already holds entries, log and return `False`; otherwise download to a
scoped temporary file (deleted on every exit from the `with` block),
extract according to the url suffix (`.zip`, `.tar.gz`, or no extraction),
and return `True`. -/
def fetch_archive_from_http (env : FetchEnv) (url : String)
    (output_dir : Option (List String)) : FetchOutcome :=
  let entries := output_dir.getD []
  let created := output_dir.isNone
  if entries.length > 0 then
    { result := .ok false, dirContents := entries, dirCreated := created,
      tempCreated := false, tempDeleted := false }
  else
    match env.httpGet with
    | .error e =>
      { result := .error e, dirContents := entries, dirCreated := created,
        tempCreated := true, tempDeleted := true }
    | .ok _ =>
      if pySliceLast url 4 = ".zip" then
        match env.zipExtract with
        | .error e =>
          { result := .error e, dirContents := entries, dirCreated := created,
            tempCreated := true, tempDeleted := true }
        | .ok files =>
          { result := .ok true, dirContents := entries ++ files, dirCreated := created,
            tempCreated := true, tempDeleted := true }
      else if pySliceLast url 7 = ".tar.gz" then
        match env.tarExtract with
        | .error e =>
          { result := .error e, dirContents := entries, dirCreated := created,
            tempCreated := true, tempDeleted := true }
        | .ok files =>
          { result := .ok true, dirContents := entries ++ files, dirCreated := created,
            tempCreated := true, tempDeleted := true }
      else
        { result := .ok true, dirContents := entries, dirCreated := created,
          tempCreated := true, tempDeleted := true }

/-- A lowercase ASCII letter (what an upper-casing cleaner must not leave
in its output). -/
def isLowerAlpha (c : Char) : Bool :=
  decide (97 ≤ c.toNat ∧ c.toNat ≤ 122)

/-- Every record has text that is non-empty and not whitespace-only. -/
def nonBlankDocs (docs : List Document) : Bool :=
  docs.all (fun d => !isBlankPara d.text.data && !(d.text == ""))

/-- No record's text contains a lowercase ASCII letter. -/
def noLowerDocs (docs : List Document) : Bool :=
  docs.all (fun d => d.text.data.all (fun c => !isLowerAlpha c))

/-! ### Basic lemmas about the embedded operations -/

theorem splitNN_ne_nil (cs : List Char) : splitNN cs ≠ [] := by
  induction cs using splitNN.induct with
  | case1 => simp [splitNN]
  | case2 rest ih => simp [splitNN]
  | case3 c rest h hnil ih => simp [splitNN, h, hnil]
  | case4 c rest h p ps heq ih => simp [splitNN, h, heq]

theorem splitNN_chars (cs : List Char) : ∀ p ∈ splitNN cs, ∀ c ∈ p, c ∈ cs := by
  induction cs using splitNN.induct with
  | case1 => simp [splitNN]
  | case2 rest ih =>
    intro p hp c hc
    simp only [splitNN] at hp
    rcases List.mem_cons.mp hp with h | h
    · simp [h] at hc
    · exact List.mem_cons_of_mem _ (List.mem_cons_of_mem _ (ih p h c hc))
  | case3 c rest h hnil ih =>
    intro p hp d hd
    simp [splitNN, h, hnil] at hp
    subst hp
    simp at hd
    subst hd
    exact List.mem_cons_self _ _
  | case4 c rest h q qs heq ih =>
    intro p hp d hd
    simp only [splitNN, h, heq] at hp
    rcases List.mem_cons.mp hp with h1 | h1
    · subst h1
      rcases List.mem_cons.mp hd with h2 | h2
      · exact h2 ▸ List.mem_cons_self _ _
      · have hq : q ∈ splitNN rest := heq ▸ List.mem_cons_self _ _
        exact List.mem_cons_of_mem _ (ih q hq d h2)
    · have hp' : p ∈ splitNN rest := heq ▸ List.mem_cons_of_mem _ h1
      exact List.mem_cons_of_mem _ (ih p hp' d hd)

theorem mem_paragraphDocs (d : Document) (t : String) (h : d ∈ paragraphDocs t) :
    isBlankPara d.text.data = false ∧ (∀ c ∈ d.text.data, c ∈ t.data) := by
  rcases List.mem_map.mp h with ⟨p, hp, hd⟩
  rcases List.mem_filter.mp hp with ⟨hmem, hq⟩
  have hdp : d.text.data = p := by rw [← hd]
  constructor
  · rw [hdp]
    simpa using hq
  · intro c hc
    exact splitNN_chars t.data p hmem c (hdp ▸ hc)

theorem isBlankPara_nil : isBlankPara ([] : List Char) = true := rfl

/-- Evaluation of `processFile` on a file whose suffix is `.txt`. -/
theorem processFile_eq_txt (pdfX : SrcFile → String) (clean : Option (String → String))
    (split : Bool) (f : SrcFile) (hf : pySuffix f.name = ".txt") :
    processFile pdfX clean split f =
      .ok (if split then paragraphDocs (applyClean clean f.content)
           else [⟨applyClean clean f.content⟩]) := by
  unfold processFile
  rw [if_pos hf]
  cases split <;> rfl

/-- Evaluation of `processFile` on a file whose suffix is `.pdf`. -/
theorem processFile_eq_pdf (pdfX : SrcFile → String) (clean : Option (String → String))
    (split : Bool) (f : SrcFile) (hf1 : pySuffix f.name ≠ ".txt")
    (hf2 : pySuffix f.name = ".pdf") :
    processFile pdfX clean split f =
      .ok (if split then paragraphDocs (applyClean clean (pdfX f))
           else [⟨applyClean clean (pdfX f)⟩]) := by
  unfold processFile
  rw [if_neg hf1, if_pos hf2]
  cases split <;> rfl

/-- Evaluation of `processFile` on a file of any other suffix: the
unsupported-format exception. -/
theorem processFile_eq_err (pdfX : SrcFile → String) (clean : Option (String → String))
    (split : Bool) (f : SrcFile) (hf1 : pySuffix f.name ≠ ".txt")
    (hf2 : pySuffix f.name ≠ ".pdf") :
    processFile pdfX clean split f =
      .error ("Indexing of " ++ pySuffix f.name ++ " files is not currently supported.") := by
  unfold processFile
  rw [if_neg hf1, if_neg hf2]

/-- Any successful record list of a single file is the split-or-whole
record list of the cleaned text of some raw text. -/
theorem processFile_ok_shape (pdfX : SrcFile → String) (clean : Option (String → String))
    (split : Bool) (f : SrcFile) (ds : List Document)
    (hok : processFile pdfX clean split f = .ok ds) :
    ∃ raw : String,
      ds = if split then paragraphDocs (applyClean clean raw)
           else [⟨applyClean clean raw⟩] := by
  by_cases h1 : pySuffix f.name = ".txt"
  · rw [processFile_eq_txt pdfX clean split f h1] at hok
    exact ⟨f.content, by injection hok with h; exact h.symm⟩
  · by_cases h2 : pySuffix f.name = ".pdf"
    · rw [processFile_eq_pdf pdfX clean split f h1 h2] at hok
      exact ⟨pdfX f, by injection hok with h; exact h.symm⟩
    · rw [processFile_eq_err pdfX clean split f h1 h2] at hok
      exact absurd hok (by simp)

/-- Every record of the main loop's output comes from the records of one
of the enumerated files. -/
theorem docsOfFiles_mem (pdfX : SrcFile → String) (clean : Option (String → String))
    (split : Bool) (files : List SrcFile) (docs : List Document)
    (hok : docsOfFiles pdfX clean split files = .ok docs) :
    ∀ d ∈ docs, ∃ f ∈ files, ∃ ds, processFile pdfX clean split f = .ok ds ∧ d ∈ ds := by
  induction files generalizing docs with
  | nil =>
    simp only [docsOfFiles, Except.ok.injEq] at hok
    simp [← hok]
  | cons f rest ih =>
    intro d hd
    simp only [docsOfFiles] at hok
    split at hok
    · exact absurd hok (by simp)
    · rename_i ds hds
      split at hok
      · exact absurd hok (by simp)
      · rename_i ds' hds'
        simp only [Except.ok.injEq] at hok
        rcases List.mem_append.mp (hok ▸ hd) with h | h
        · exact ⟨f, List.mem_cons_self _ _, ds, hds, h⟩
        · rcases ih ds' hds' d h with ⟨g, hg, es, hes, hdes⟩
          exact ⟨g, List.mem_cons_of_mem _ hg, es, hes, hdes⟩

/-- A non-empty computed suffix is a suffix of the basename's characters. -/
theorem pySuffix_suffix (name ext : String) (h : pySuffix name = ext) (hne : ext ≠ "") :
    ext.data <:+ name.data := by
  unfold pySuffix at h
  split at h
  · exact absurd h.symm hne
  · split at h
    · have : name.data.drop _ = ext.data := congrArg String.data h
      exact this ▸ List.drop_suffix _ _
    · exact absurd h.symm hne

theorem suffix_eq_of_length {l₁ l₂ l : List Char} (h₁ : l₁ <:+ l) (h₂ : l₂ <:+ l)
    (hlen : l₁.length = l₂.length) : l₁ = l₂ := by
  rcases h₁ with ⟨t₁, rfl⟩
  rcases h₂ with ⟨t₂, ht⟩
  have hl := congrArg List.length ht
  simp only [List.length_append] at hl
  have hlt : t₂.length = t₁.length := by omega
  exact ((List.append_inj ht hlt).2).symm

/-- A basename whose computed suffix is `ext` is matched by the glob
pattern `*ext`. -/
theorem fnmatch_of_pySuffix (name ext : String) (h : pySuffix name = ext) (hne : ext ≠ "") :
    fnmatchStarExt ext name = true := by
  simp only [fnmatchStarExt, List.isSuffixOf_iff_suffix]
  exact pySuffix_suffix name ext h hne

/-- A basename whose computed suffix is `.txt` is not matched by `*.pdf`. -/
theorem txt_not_pdf_glob (name : String) (h : pySuffix name = ".txt") :
    fnmatchStarExt ".pdf" name = false := by
  by_cases hb : fnmatchStarExt ".pdf" name = true
  · exfalso
    have h1 : (".txt" : String).data <:+ name.data :=
      pySuffix_suffix name ".txt" h (by decide)
    have h2 : (".pdf" : String).data <:+ name.data := by
      simpa only [fnmatchStarExt, List.isSuffixOf_iff_suffix] using hb
    have := suffix_eq_of_length h1 h2 (by decide)
    simp at this
  · simpa using hb

theorem mem_globFiles (fs : Fs) (ext : String) (f : SrcFile) (h : f ∈ globFiles fs ext) :
    fnmatchStarExt ext f.name = true := by
  unfold globFiles at h
  split at h
  · exact (List.mem_filter.mp h).2
  · simp at h

theorem globFiles_all_txt (fs : Fs) (hex : fs.dirExists = true)
    (h : ∀ f ∈ fs.files, pySuffix f.name = ".txt") :
    globFiles fs ".txt" = fs.files := by
  simp only [globFiles, hex, if_true]
  exact List.filter_eq_self.mpr
    (fun f hf => fnmatch_of_pySuffix f.name ".txt" (h f hf) (by decide))

theorem globFiles_no_pdf (fs : Fs) (hex : fs.dirExists = true)
    (h : ∀ f ∈ fs.files, pySuffix f.name = ".txt") :
    globFiles fs ".pdf" = [] := by
  simp only [globFiles, hex, if_true]
  rw [List.filter_eq_nil_iff]
  intro f hf
  simp [txt_not_pdf_glob f.name (h f hf)]

/-- The main loop over a list of `.txt` files in non-split mode: one record
per file with the cleaned content. -/
theorem docsOfFiles_all_txt (pdfX : SrcFile → String) (clean : Option (String → String))
    (files : List SrcFile) (h : ∀ f ∈ files, pySuffix f.name = ".txt") :
    docsOfFiles pdfX clean false files
      = .ok (files.map fun f => ⟨applyClean clean f.content⟩) := by
  induction files with
  | nil => rfl
  | cons f rest ih =>
    have hf := h f (List.mem_cons_self _ _)
    simp only [docsOfFiles, processFile_eq_txt pdfX clean false f hf,
      ih (fun g hg => h g (List.mem_cons_of_mem _ hg)), if_neg Bool.false_ne_true]
    simp

/-- The main loop distributes over list concatenation: the records of the
first part precede those of the second, and errors propagate left first. -/
theorem docsOfFiles_append (pdfX : SrcFile → String) (clean : Option (String → String))
    (split : Bool) (l₁ l₂ : List SrcFile) :
    docsOfFiles pdfX clean split (l₁ ++ l₂) =
      match docsOfFiles pdfX clean split l₁ with
      | .error e => .error e
      | .ok d₁ =>
        match docsOfFiles pdfX clean split l₂ with
        | .error e => .error e
        | .ok d₂ => .ok (d₁ ++ d₂) := by
  induction l₁ with
  | nil =>
    simp only [List.nil_append, docsOfFiles]
    cases docsOfFiles pdfX clean split l₂ <;> rfl
  | cons f rest ih =>
    simp only [List.cons_append, docsOfFiles, List.append_eq, ih]
    cases processFile pdfX clean split f with
    | error e => rfl
    | ok ds =>
      cases docsOfFiles pdfX clean split rest with
      | error e => rfl
      | ok d₁ =>
        cases docsOfFiles pdfX clean split l₂ with
        | error e => rfl
        | ok d₂ => simp

theorem rfindDot_append (l₁ l₂ : List Char) (i : Nat) (h : rfindDot l₂ = some i) :
    rfindDot (l₁ ++ l₂) = some (l₁.length + i) := by
  induction l₁ with
  | nil => simpa using h
  | cons c rest ih =>
    rw [List.cons_append, rfindDot, ih]
    show some (rest.length + i + 1) = some ((c :: rest).length + i)
    simp only [List.length_cons, Option.some.injEq]
    omega

/-- `PurePath.suffix` of a basename that properly ends in an
extension `ext` (dot-initial, length at least two, nonempty stem) is `ext`
itself. -/
theorem pySuffix_proper_suffix (pre : List Char) (ext : String) (hpre : pre ≠ [])
    (hdot : rfindDot ext.data = some 0) (hlen : 2 ≤ ext.data.length) :
    pySuffix (String.mk (pre ++ ext.data)) = ext := by
  unfold pySuffix
  simp only
  rw [rfindDot_append pre ext.data 0 hdot]
  show (if 0 < pre.length + 0 ∧ pre.length + 0 + 1 < (pre ++ ext.data).length
        then String.mk (List.drop (pre.length + 0) (pre ++ ext.data)) else "") = ext
  rw [if_pos]
  · rw [Nat.add_zero, List.drop_left]
  · constructor
    · have := List.length_pos.mpr hpre
      omega
    · simp only [List.length_append]
      have := List.length_pos.mpr hpre
      omega

/-! ### Claim theorems: Document Converter -/

/-- C1 (counterexample): not every returned record has non-empty text.  A
directory holding a single empty `.txt` file, converted in non-split mode,
yields exactly one record whose text is the empty string. -/
theorem converter_nonempty_invariant_cex :
    convert_files_to_documents ⟨true, [⟨"a.txt", ""⟩]⟩ (fun _ => "") none false
      = .ok [⟨""⟩] ∧ ¬(∀ d ∈ [Document.mk ""], d.text ≠ "") :=
  ⟨rfl, by simp⟩

/-- C1 (amended): when paragraph splitting is requested, every returned
record has non-empty, not whitespace-only text (records are filtered by
`para.strip()`); the blanket non-emptiness does not extend to non-split
mode, where the record text is the full cleaned file content and may be
empty. -/
theorem converter_split_records_nonblank (fs : Fs) (pdfX : SrcFile → String)
    (clean : Option (String → String)) (docs : List Document)
    (hok : convert_files_to_documents fs pdfX clean true = .ok docs) :
    nonBlankDocs docs = true := by
  rw [nonBlankDocs, List.all_eq_true]
  intro d hd
  rcases docsOfFiles_mem pdfX clean true _ docs hok d hd with ⟨f, hf, ds, hds, hdds⟩
  rcases processFile_ok_shape pdfX clean true f ds hds with ⟨raw, hshape⟩
  have hshape' : ds = paragraphDocs (applyClean clean raw) := by simpa using hshape
  have hblank := (mem_paragraphDocs d _ (hshape' ▸ hdds)).1
  have hne : d.text ≠ "" := by
    intro h0
    rw [h0] at hblank
    simp [isBlankPara] at hblank
  simp [hblank, hne]

/-- C1 (witness). -/
theorem converter_split_records_nonblank_witness :
    nonBlankDocs [⟨"x"⟩, ⟨"y"⟩] = true :=
  converter_split_records_nonblank ⟨true, [⟨"a.txt", "x\n\ny"⟩]⟩ (fun _ => "") none
    [⟨"x"⟩, ⟨"y"⟩] rfl

/-- C5: a file whose whole (cleaned) content is `"a\n\nb\n\n  \n\nc"`,
converted with paragraph splitting, is split on two consecutive newlines,
whitespace-only paragraphs are dropped, and exactly the records
`["a", "b", "c"]` are emitted in order. -/
theorem converter_paragraph_split_example (pdfX : SrcFile → String) :
    convert_files_to_documents ⟨true, [⟨"doc.txt", "a\n\nb\n\n  \n\nc"⟩]⟩ pdfX none true
      = .ok [⟨"a"⟩, ⟨"b"⟩, ⟨"c"⟩] := rfl

/-- C6: over a directory whose files all have suffix `.txt`, non-split
conversion returns exactly one record per file, holding that file's
content after cleaning (the raw content when no cleaner is supplied). -/
theorem converter_txt_only_no_split (fs : Fs) (pdfX : SrcFile → String)
    (clean : Option (String → String)) (hex : fs.dirExists = true)
    (htxt : ∀ f ∈ fs.files, pySuffix f.name = ".txt") :
    convert_files_to_documents fs pdfX clean false
      = .ok (fs.files.map fun f => ⟨applyClean clean f.content⟩) := by
  unfold convert_files_to_documents
  rw [globFiles_all_txt fs hex htxt, globFiles_no_pdf fs hex htxt, List.append_nil]
  exact docsOfFiles_all_txt pdfX clean fs.files htxt

/-- C6 (witness). -/
theorem converter_txt_only_no_split_witness :
    convert_files_to_documents ⟨true, [⟨"a.txt", "hello"⟩, ⟨"b.txt", "x"⟩]⟩
      (fun _ => "") (some fun s => s ++ "!") false
      = .ok [⟨"hello!"⟩, ⟨"x!"⟩] :=
  (converter_txt_only_no_split ⟨true, [⟨"a.txt", "hello"⟩, ⟨"b.txt", "x"⟩]⟩
    (fun _ => "") (some fun s => s ++ "!") rfl (by decide)).trans rfl

/-- C7: when the supplied cleaner never leaves a lowercase ASCII letter in
its output, every record returned in either mode contains no lowercase
ASCII letter (the cleaner runs on the raw text before any splitting, and
paragraph records are substrings of the cleaned text). -/
theorem converter_upper_cleaner (fs : Fs) (pdfX : SrcFile → String)
    (g : String → String) (split : Bool) (docs : List Document)
    (hg : ∀ s : String, ∀ c ∈ (g s).data, isLowerAlpha c = false)
    (hok : convert_files_to_documents fs pdfX (some g) split = .ok docs) :
    noLowerDocs docs = true := by
  rw [noLowerDocs, List.all_eq_true]
  intro d hd
  rw [show ((fun d : Document => d.text.data.all fun c => !isLowerAlpha c) d = true)
        = (d.text.data.all (fun c => !isLowerAlpha c) = true) from rfl,
     List.all_eq_true]
  intro c hc
  rcases docsOfFiles_mem pdfX (some g) split _ docs hok d hd with ⟨f, hf, ds, hds, hdds⟩
  rcases processFile_ok_shape pdfX (some g) split f ds hds with ⟨raw, hshape⟩
  have hcmem : c ∈ (g raw).data := by
    cases split with
    | true =>
      have hshape' : ds = paragraphDocs (applyClean (some g) raw) := by simpa using hshape
      exact (mem_paragraphDocs d _ (hshape' ▸ hdds)).2 c hc
    | false =>
      have hshape' : ds = [⟨applyClean (some g) raw⟩] := by simpa using hshape
      have hde : d = ⟨applyClean (some g) raw⟩ := by
        have := hshape' ▸ hdds
        simpa using this
      rw [hde] at hc
      exact hc
  simpa using hg raw c hcmem

/-- C7 (witness). -/
theorem converter_upper_cleaner_witness :
    noLowerDocs [⟨"UP"⟩] = true := by
  refine converter_upper_cleaner ⟨true, [⟨"a.txt", "q"⟩]⟩ (fun _ => "")
    (fun _ => "UP") false [⟨"UP"⟩] ?_ rfl
  intro s
  show ∀ c ∈ ("UP" : String).data, isLowerAlpha c = false
  decide

/-- C8 (counterexample): the defensive unsupported-format branch is
reachable.  A file named exactly `.txt` is matched by the `**/*.txt` glob
(a leading `*` matches the empty string) yet its `Path.suffix` is empty, so
conversion raises the unsupported-format exception for it. -/
theorem glob_suffix_unreachable_cex :
    globFiles ⟨true, [⟨".txt", "hi"⟩]⟩ ".txt" = [⟨".txt", "hi"⟩]
    ∧ pySuffix ".txt" ≠ ".txt" ∧ pySuffix ".txt" ≠ ".pdf"
    ∧ convert_files_to_documents ⟨true, [⟨".txt", "hi"⟩]⟩ (fun _ => "") none false
        = .error "Indexing of  files is not currently supported." :=
  ⟨rfl, by decide, by decide, rfl⟩

/-- C8 (amended): every path produced by the enumeration step whose
basename is not exactly `.txt` or `.pdf` has extension `.txt` or `.pdf`, so
the defensive branch is unreachable except for files named exactly `.txt`
or `.pdf` (dotfiles with empty `Path.suffix`), for which it raises. -/
theorem glob_suffix_amended (fs : Fs) (f : SrcFile)
    (hf : f ∈ globFiles fs ".txt" ++ globFiles fs ".pdf")
    (h1 : f.name ≠ ".txt") (h2 : f.name ≠ ".pdf") :
    pySuffix f.name = ".txt" ∨ pySuffix f.name = ".pdf" := by
  have key : ∀ ext : String, rfindDot ext.data = some 0 → 2 ≤ ext.data.length →
      fnmatchStarExt ext f.name = true → f.name ≠ ext → pySuffix f.name = ext := by
    intro ext hdot hlen hmatch hne
    have hsfx : ext.data <:+ f.name.data := by
      simpa only [fnmatchStarExt, List.isSuffixOf_iff_suffix] using hmatch
    rcases hsfx with ⟨pre, hpre⟩
    have hpre_ne : pre ≠ [] := by
      rintro rfl
      apply hne
      have hdata : f.name.data = ext.data := by simpa using hpre.symm
      calc f.name = String.mk f.name.data := rfl
        _ = String.mk ext.data := by rw [hdata]
        _ = ext := rfl
    have hps := pySuffix_proper_suffix pre ext hpre_ne hdot hlen
    have hname : String.mk (pre ++ ext.data) = f.name := by
      calc String.mk (pre ++ ext.data) = String.mk f.name.data := by rw [hpre]
        _ = f.name := rfl
    rw [hname] at hps
    exact hps
  rcases List.mem_append.mp hf with h | h
  · exact Or.inl (key ".txt" (by decide) (by decide) (mem_globFiles fs ".txt" f h) h1)
  · exact Or.inr (key ".pdf" (by decide) (by decide) (mem_globFiles fs ".pdf" f h) h2)

/-- C8 (witness for the amended claim). -/
theorem glob_suffix_amended_witness :
    pySuffix "a.txt" = ".txt" ∨ pySuffix "a.txt" = ".pdf" :=
  glob_suffix_amended ⟨true, [⟨"a.txt", "x"⟩]⟩ ⟨"a.txt", "x"⟩
    (by decide) (by decide) (by decide)

/-- C9: a directory path that does not exist raises no error: the globs
yield no matches and the converter returns an empty record list. -/
theorem converter_missing_dir (files : List SrcFile) (pdfX : SrcFile → String)
    (clean : Option (String → String)) (split : Bool) :
    convert_files_to_documents ⟨false, files⟩ pdfX clean split = .ok [] := rfl

/-- C10: the converter's output is the records of the `**/*.txt`-globbed
files followed by the records of the `**/*.pdf`-globbed files, because the
`.txt` glob is run to completion before the `.pdf` glob; within each file,
record order follows paragraph order by construction of `paragraphDocs`. -/
theorem converter_txt_records_before_pdf (fs : Fs) (pdfX : SrcFile → String)
    (clean : Option (String → String)) (split : Bool) :
    convert_files_to_documents fs pdfX clean split =
      match docsOfFiles pdfX clean split (globFiles fs ".txt") with
      | .error e => .error e
      | .ok dtxt =>
        match docsOfFiles pdfX clean split (globFiles fs ".pdf") with
        | .error e => .error e
        | .ok dpdf => .ok (dtxt ++ dpdf) :=
  docsOfFiles_append pdfX clean split (globFiles fs ".txt") (globFiles fs ".pdf")

/-! ### Claim theorems: Archive Fetcher -/

/-- C2: for a url whose last four characters are not `.zip` and whose last
seven are not `.tar.gz`, on an empty output directory with a successful
download, the fetcher downloads (the temporary file is created), performs
no extraction (the directory receives no content), and still returns
`True`. -/
theorem fetch_unknown_suffix_downloads (env : FetchEnv) (url : String)
    (d : Option (List String))
    (hzip : pySliceLast url 4 ≠ ".zip") (htar : pySliceLast url 7 ≠ ".tar.gz")
    (hempty : d.getD [] = ([] : List String)) (hdl : env.httpGet = .ok ()) :
    fetch_archive_from_http env url d =
      { result := .ok true, dirContents := [], dirCreated := d.isNone,
        tempCreated := true, tempDeleted := true } := by
  unfold fetch_archive_from_http
  rw [hempty, hdl]
  simp [hzip, htar]

/-- C2 (witness). -/
theorem fetch_unknown_suffix_downloads_witness :
    fetch_archive_from_http ⟨.ok (), .ok ["x"], .ok ["y"]⟩ "http://host/data.bin" none =
      { result := .ok true, dirContents := [], dirCreated := true,
        tempCreated := true, tempDeleted := true } :=
  fetch_unknown_suffix_downloads ⟨.ok (), .ok ["x"], .ok ["y"]⟩ "http://host/data.bin"
    none (by decide) (by decide) rfl rfl

/-- C3: on every path of the fetcher that creates the temporary download
file — normal completion, extraction failure, or download failure — the
`with` block deletes it before the call returns or the error propagates. -/
theorem fetch_temp_file_released (env : FetchEnv) (url : String)
    (d : Option (List String))
    (h : (fetch_archive_from_http env url d).tempCreated = true) :
    (fetch_archive_from_http env url d).tempDeleted = true := by
  have key : (fetch_archive_from_http env url d).tempDeleted
      = (fetch_archive_from_http env url d).tempCreated := by
    simp only [fetch_archive_from_http]
    repeat first
      | rfl
      | split
  rw [key, h]

/-- C3 (witness): a download failure still deletes the temporary file. -/
theorem fetch_temp_file_released_witness :
    (fetch_archive_from_http ⟨.error "timeout", .ok [], .ok []⟩ "http://h/a.zip" none).tempDeleted
      = true :=
  fetch_temp_file_released ⟨.error "timeout", .ok [], .ok []⟩ "http://h/a.zip" none rfl

/-- C4: a fetch against an output directory already holding entries
performs no download and no extraction, returns `False`, and leaves the
contents unchanged; hence after a first call that returned `True` and left
the directory non-empty, a second call returns `False` and changes
nothing. -/
theorem fetch_skip_nonempty_guard :
    (∀ (env : FetchEnv) (url : String) (entries : List String), entries ≠ [] →
        fetch_archive_from_http env url (some entries) =
          { result := .ok false, dirContents := entries, dirCreated := false,
            tempCreated := false, tempDeleted := false })
    ∧ (∀ (env1 env2 : FetchEnv) (url : String) (d : Option (List String))
          (out1 : FetchOutcome), fetch_archive_from_http env1 url d = out1 →
        out1.result = .ok true → out1.dirContents ≠ [] →
        fetch_archive_from_http env2 url (some out1.dirContents) =
          { result := .ok false, dirContents := out1.dirContents, dirCreated := false,
            tempCreated := false, tempDeleted := false }) := by
  have part1 : ∀ (env : FetchEnv) (url : String) (entries : List String), entries ≠ [] →
      fetch_archive_from_http env url (some entries) =
        { result := .ok false, dirContents := entries, dirCreated := false,
          tempCreated := false, tempDeleted := false } := by
    intro env url entries hne
    unfold fetch_archive_from_http
    rw [if_pos]
    · rfl
    · show ((some entries).getD []).length > 0
      simpa using List.length_pos.mpr hne
  exact ⟨part1, fun env1 env2 url d out1 _ _ hne => part1 env2 url out1.dirContents hne⟩

/-- C4 (witness): the second of two sequential calls skips the fetch. -/
theorem fetch_skip_nonempty_guard_witness :
    fetch_archive_from_http ⟨.ok (), .ok ["f"], .ok []⟩ "http://h/a.zip" (some ["f"]) =
      { result := .ok false, dirContents := ["f"], dirCreated := false,
        tempCreated := false, tempDeleted := false } :=
  fetch_skip_nonempty_guard.2 ⟨.ok (), .ok ["f"], .ok []⟩ ⟨.ok (), .ok ["f"], .ok []⟩
    "http://h/a.zip" none
    { result := .ok true, dirContents := ["f"], dirCreated := true,
      tempCreated := true, tempDeleted := true } rfl rfl (by decide)

end Haystack
